import Mathlib

/-!
Verification of the WhatsApp→Email bridge (`src/index.ts`).

The development shallowly embeds the glue logic of the single orchestration
class `WhatsAppEmailMCPServer`:

* `parseWhatsAppMessage` — two-stage parser: a strict JavaScript regex
  `([a-zA-Z0-9._%+-]+@[a-zA-Z0-9.-]+\.[a-zA-Z]{2,}):\s*(.+)` searched
  unanchored with leftmost-match backtracking semantics, then a
  generative-model fallback whose output is `JSON.parse`d and checked for
  truthy `recipient`/`context` fields.
* `generateEmailContent` — one model call, subject extracted with
  `/Subject:\s*(.+)/i`, body obtained by deleting the first match of
  `/Subject:\s*.+\n*/i` and trimming.
* `sendEnhancedEmail` / `processWhatsAppMessage` — the pipeline behind the
  `send_email_from_whatsapp` tool.

External effects (the generative model, `JSON.parse`, `sendMail`) are passed
in as explicit oracle parameters; a `List MailOptions` trace records every
`sendMail` invocation.  JavaScript exceptions are modelled with `Except`.
Strings are modelled as lists of characters (`String.data`).
-/

/-! ### JavaScript character classes

Each class is written over the character's code point so the proofs can use
`omega`.  Hex values: 0x41-'A', 0x5a-'Z', 0x61-'a', 0x7a-'z', 0x30-'0',
0x39-'9', 0x2e-'.', 0x5f-'_', 0x25-'%', 0x2b-'+', 0x2d-'-', 0x40-'@',
0x3a-':'. -/

/-- The regex class `[a-zA-Z0-9._%+-]` (local part of the address). -/
def isLocalChar (c : Char) : Bool :=
  decide ((0x41 ≤ c.toNat ∧ c.toNat ≤ 0x5a) ∨ (0x61 ≤ c.toNat ∧ c.toNat ≤ 0x7a) ∨
    (0x30 ≤ c.toNat ∧ c.toNat ≤ 0x39) ∨ c.toNat = 0x2e ∨ c.toNat = 0x5f ∨
    c.toNat = 0x25 ∨ c.toNat = 0x2b ∨ c.toNat = 0x2d)

/-- The regex class `[a-zA-Z0-9.-]` (domain part). -/
def isDomainChar (c : Char) : Bool :=
  decide ((0x41 ≤ c.toNat ∧ c.toNat ≤ 0x5a) ∨ (0x61 ≤ c.toNat ∧ c.toNat ≤ 0x7a) ∨
    (0x30 ≤ c.toNat ∧ c.toNat ≤ 0x39) ∨ c.toNat = 0x2e ∨ c.toNat = 0x2d)

/-- The regex class `[a-zA-Z]` (top-level domain). -/
def isTldChar (c : Char) : Bool :=
  decide ((0x41 ≤ c.toNat ∧ c.toNat ≤ 0x5a) ∨ (0x61 ≤ c.toNat ∧ c.toNat ≤ 0x7a))

/-- JavaScript `\s` (also the character set removed by `String.prototype.trim`):
space, tab, LF, VT, FF, CR, NBSP, U+1680, U+2000–U+200A, LS, PS, U+202F,
U+205F, U+3000, U+FEFF. -/
def jsIsSpace (c : Char) : Bool :=
  decide (c.toNat = 0x20 ∨ c.toNat = 0x9 ∨ c.toNat = 0xa ∨ c.toNat = 0xb ∨
    c.toNat = 0xc ∨ c.toNat = 0xd ∨ c.toNat = 0xa0 ∨ c.toNat = 0x1680 ∨
    (0x2000 ≤ c.toNat ∧ c.toNat ≤ 0x200a) ∨ c.toNat = 0x2028 ∨ c.toNat = 0x2029 ∨
    c.toNat = 0x202f ∨ c.toNat = 0x205f ∨ c.toNat = 0x3000 ∨ c.toNat = 0xfeff)

/-- JavaScript `.` without the `s` flag: any character except the line
terminators LF, CR, LS, PS. -/
def jsIsDot (c : Char) : Bool :=
  decide (¬ (c.toNat = 0xa ∨ c.toNat = 0xd ∨ c.toNat = 0x2028 ∨ c.toNat = 0x2029))

/-- Models `String.prototype.trim` on a character list: drop JavaScript whitespace
from both ends. -/
def trimList (cs : List Char) : List Char :=
  ((cs.dropWhile jsIsSpace).reverse.dropWhile jsIsSpace).reverse

/-- Models `String.prototype.trim`. -/
def jsTrim (s : String) : String := String.mk (trimList s.data)

/-! ### Backtracking primitives

A greedy quantifier over a character class tries the longest munch first and
gives characters back one at a time.  `splitsDesc cs n` lists the splits
`(cs.take k, cs.drop k)` for `k = n, n-1, …, 1`, i.e. the candidates of a
greedy `+` whose maximal munch has length `n`, in the order a JavaScript
engine tries them. -/

def splitsDesc (cs : List Char) : Nat → List (List Char × List Char)
  | 0 => []
  | n + 1 => (cs.take (n + 1), cs.drop (n + 1)) :: splitsDesc cs n

/-- Candidates of a greedy `X+` (class `p`), longest first. -/
def plusSplits (p : Char → Bool) (cs : List Char) : List (List Char × List Char) :=
  splitsDesc cs (cs.takeWhile p).length

/-- Candidates of a greedy `X*` (class `p`), longest first, ending with the
empty munch. -/
def starSplits (p : Char → Bool) (cs : List Char) : List (List Char × List Char) :=
  splitsDesc cs (cs.takeWhile p).length ++ [([], cs)]

/-- First candidate on which `f` succeeds — the backtracking search order. -/
def firstSome {α β : Type} (f : α → Option β) : List α → Option β
  | [] => none
  | x :: xs => match f x with
    | some y => some y
    | none => firstSome f xs

/-! ### The strict parser regex

`/([a-zA-Z0-9._%+-]+@[a-zA-Z0-9.-]+\.[a-zA-Z]{2,}):\s*(.+)/` applied with
`String.prototype.match` (no `g` flag): leftmost match, greedy quantifiers
with backtracking. -/

/-- One candidate of the trailing `(.+)`: after the whitespace munch
`sp.1`, the greedy dot-run must be non-empty. -/
def dotPlusCap (sp : List Char × List Char) : Option (List Char) :=
  let cap := sp.2.takeWhile jsIsDot
  if cap = [] then none else some cap

/-- Matches the tail `\s*(.+)` of the email regex and returns capture
group 2. -/
def matchAfterColon (cs : List Char) : Option (List Char) :=
  firstSome dotPlusCap (starSplits jsIsSpace cs)

/-- One candidate of the stage `[a-zA-Z]{2,}:\s*(.+)`: the TLD munch
`tsp.1` needs at least two characters, then the literal colon and the tail
must follow.  `lead` is the part of capture group 1 already consumed. -/
def tldCand (lead : List Char) (tsp : List Char × List Char) :
    Option (List Char × List Char) :=
  if tsp.1.length < 2 then none
  else
    match tsp.2 with
    | c :: r3 =>
      if c = ':' then (matchAfterColon r3).map (fun cap => (lead ++ tsp.1, cap))
      else none
    | [] => none

/-- Stage `[a-zA-Z]{2,}:\s*(.+)` of the email regex: greedy TLD with
backtracking. -/
def tldStage (lead : List Char) (r2 : List Char) : Option (List Char × List Char) :=
  firstSome (tldCand lead) (plusSplits isTldChar r2)

/-- One candidate of the stage `[a-zA-Z0-9.-]+\.`: after the domain munch
`dsp.1` the literal dot must follow, then the TLD stage runs.  `loc` is the
already-matched local part. -/
def domCand (loc : List Char) (dsp : List Char × List Char) :
    Option (List Char × List Char) :=
  match dsp.2 with
  | c :: r2 => if c = '.' then tldStage (loc ++ '@' :: dsp.1 ++ ['.']) r2 else none
  | [] => none

/-- Stage `[a-zA-Z0-9.-]+\.…` of the email regex: greedy domain with
backtracking. -/
def domStage (loc : List Char) (r1 : List Char) : Option (List Char × List Char) :=
  firstSome (domCand loc) (plusSplits isDomainChar r1)

/-- One candidate of the leading `[a-zA-Z0-9._%+-]+`: after the local-part
munch `lsp.1` the literal `@` must follow. -/
def locCand (lsp : List Char × List Char) : Option (List Char × List Char) :=
  match lsp.2 with
  | c :: r1 => if c = '@' then domStage lsp.1 r1 else none
  | [] => none

/-- Matches the email regex anchored at the start of `cs`; returns
`(group 1, group 2)`. -/
def matchEmailAt (cs : List Char) : Option (List Char × List Char) :=
  firstSome locCand (plusSplits isLocalChar cs)

/-- Unanchored leftmost search of the email regex, as
`message.match(emailRegex)` performs it. -/
def searchEmail : List Char → Option (List Char × List Char)
  | [] => none
  | c :: cs =>
    match matchEmailAt (c :: cs) with
    | some r => some r
    | none => searchEmail cs

/-- The `{recipient, context}` pair produced by the parser's strict branch. -/
structure EmailData where
  recipient : String
  context : String
deriving DecidableEq, Repr

/-- The strict branch of `parseWhatsAppMessage`:
`message.match(emailRegex)` followed by `match[1].trim()` /
`match[2].trim()`. -/
def parseStrict (message : String) : Option EmailData :=
  match searchEmail message.data with
  | some r => some ⟨String.mk (trimList r.1), String.mk (trimList r.2)⟩
  | none => none

/-! ### JSON values and the generative-model fallback

`JSON.parse` and the model call are external; they enter as oracle
parameters (`parseJson : String → Except String Json` for `JSON.parse`,
`Except String String` for the model call's outcome).  Property access and
truthiness follow JavaScript semantics. -/

/-- JSON values (numbers modelled as integers). -/
inductive Json where
  | null : Json
  | bool : Bool → Json
  | num : Int → Json
  | str : String → Json
  | arr : List Json → Json
  | obj : List (String × Json) → Json
deriving Repr

/-- JavaScript truthiness of a JSON value. -/
def jsTruthy : Json → Bool
  | .null => false
  | .bool b => b
  | .num n => n != 0
  | .str s => s != ""
  | .arr _ => true
  | .obj _ => true

/-- Last binding of a key in an object literal (`JSON.parse` keeps the last
duplicate). -/
def lookupLast (k : String) : List (String × Json) → Option Json
  | [] => none
  | (k2, v) :: fs =>
    match lookupLast k fs with
    | some v2 => some v2
    | none => if k2 = k then some v else none

/-- JavaScript property read `j[k]`: throws a `TypeError` on `null`,
yields `undefined` (`none`) on primitives and missing keys. -/
def jsGetField : Json → String → Except Unit (Option Json)
  | .null, _ => .error ()
  | .obj fs, k => .ok (lookupLast k fs)
  | _, _ => .ok none

/-- Truthiness of a possibly-`undefined` value. -/
def truthyOpt : Option Json → Bool
  | none => false
  | some v => jsTruthy v

/-- Models `parsed.recipient && parsed.context ? parsed : null`, with the
short-circuit `&&` and with a thrown `TypeError` landing in the enclosing
`catch` (hence `none`). -/
def checkParsed (parsed : Json) : Option Json :=
  match jsGetField parsed "recipient" with
  | .error _ => none
  | .ok r =>
    if truthyOpt r then
      match jsGetField parsed "context" with
      | .error _ => none
      | .ok c => if truthyOpt c then some parsed else none
    else none

/-- The `try { … } catch { return null }` fallback of `parseWhatsAppMessage`:
model call, `JSON.parse`, truthiness check. -/
def aiFallback (modelResult : Except String String)
    (parseJson : String → Except String Json) : Option Json :=
  match modelResult with
  | .error _ => none
  | .ok text =>
    match parseJson text with
    | .error _ => none
    | .ok parsed => checkParsed parsed

/-- Models `parseWhatsAppMessage`: strict regex first (its `{recipient, context}`
object), generative-model fallback second. -/
def parseWhatsAppMessage (message : String) (modelResult : Except String String)
    (parseJson : String → Except String Json) : Option Json :=
  match parseStrict message with
  | some d => some (Json.obj [("recipient", Json.str d.recipient), ("context", Json.str d.context)])
  | none => aiFallback modelResult parseJson

/-! ### The content generator's regexes

`content.match(/Subject:\s*(.+)/i)` and
`content.replace(/Subject:\s*.+\n*/i, '')`. -/

/-- Case-insensitive literal match (JavaScript `i` flag canonicalisation,
which folds only same-width mappings; for the ASCII literal used here,
ASCII lowercasing).  Returns the rest of the input. -/
def ciLit : List Char → List Char → Option (List Char)
  | [], cs => some cs
  | l :: ls, c :: cs => if c.toLower = l then ciLit ls cs else none
  | _ :: _, [] => none

/-- The literal `Subject:` in folded form. -/
def subjectLit : List Char := ['s', 'u', 'b', 'j', 'e', 'c', 't', ':']

/-- Matches `/Subject:\s*(.+)/i` anchored at the start of `cs`; returns capture
group 1. -/
def matchSubjectAt (cs : List Char) : Option (List Char) :=
  match ciLit subjectLit cs with
  | none => none
  | some rest => matchAfterColon rest

/-- Unanchored leftmost search of `/Subject:\s*(.+)/i`. -/
def matchSubject : List Char → Option (List Char)
  | [] => none
  | c :: cs =>
    match matchSubjectAt (c :: cs) with
    | some r => some r
    | none => matchSubject cs

/-- Matches `/Subject:\s*.+\n*/i` anchored at the start of `cs`; returns the rest of
the input after the matched span. -/
def subjLineAt (cs : List Char) : Option (List Char) :=
  match ciLit subjectLit cs with
  | none => none
  | some rest =>
    firstSome (fun sp =>
        let run := sp.2.takeWhile jsIsDot
        if run = [] then none
        else some ((sp.2.drop run.length).dropWhile (fun c => c == '\n')))
      (starSplits jsIsSpace rest)

/-- Models `content.replace(/Subject:\s*.+\n*/i, '')`: delete the leftmost match
(no `g` flag), keep everything else. -/
def replaceSubj : List Char → List Char
  | [] => []
  | c :: cs =>
    match subjLineAt (c :: cs) with
    | some rest => rest
    | none => c :: replaceSubj cs

/-- The fallback subject `` `Regarding: ${context.substring(0, 50)}...` ``. -/
def fallbackSubject (context : String) : String :=
  "Regarding: " ++ String.mk (context.data.take 50) ++ "..."

/-- Models `generateEmailContent`: one model call (outcome passed as an oracle;
its failure propagates — there is no try/catch here), then subject
extraction and body cleanup. -/
def generateEmailContent (context : String) (modelResult : Except String String) :
    Except String (String × String) :=
  match modelResult with
  | .error e => .error e
  | .ok content =>
    let subject :=
      match matchSubject content.data with
      | some cap => String.mk (trimList cap)
      | none => fallbackSubject context
    let body := String.mk (trimList (replaceSubj content.data))
    .ok (subject, body)

/-! ### The mail pipeline behind `send_email_from_whatsapp`

`sendMail` is external; its acceptance/rejection enters as an oracle
`sendOutcome : MailOptions → Except String Unit`, and the returned
`List MailOptions` trace records each invocation of the Mail Sender. -/

mutual

/-- String interpolation `` `${v}` `` of a JSON value (JavaScript ToString;
array elements join with commas, `null` elements become empty). -/
def jsToStr : Json → String
  | .null => "null"
  | .bool true => "true"
  | .bool false => "false"
  | .num n => toString n
  | .str s => s
  | .arr xs => String.intercalate "," (jsToStrElems xs)
  | .obj _ => "[object Object]"

/-- Array elements under `Array.prototype.join`: `null` renders empty. -/
def jsToStrElems : List Json → List String
  | [] => []
  | .null :: vs => "" :: jsToStrElems vs
  | v :: vs => jsToStr v :: jsToStrElems vs

end

/-- Read property `k` of the parsed email data and coerce it to a string as
interpolation would (`undefined` prints as such; a thrown access cannot
occur on values `parseWhatsAppMessage` returns). -/
def jsFieldStr (j : Json) (k : String) : String :=
  match jsGetField j k with
  | .ok (some v) => jsToStr v
  | _ => "undefined"

/-- The argument object handed to `emailTransporter.sendMail`
(`fromAddr`/`toAddr` model the source's `from`/`to` fields). -/
structure MailOptions where
  fromAddr : String
  toAddr : String
  subject : String
  html : String
  text : String
deriving DecidableEq, Repr

/-- Models `body.replace(/\n/g, '<br>')`. -/
def nlToBr : List Char → List Char
  | [] => []
  | '\n' :: cs => '<' :: 'b' :: 'r' :: '>' :: nlToBr cs
  | c :: cs => c :: nlToBr cs

/-- The `html` template literal of `sendEnhancedEmail`, verbatim. -/
def emailHtml (body : String) : String :=
  "\n        <div style=\"font-family: Arial, sans-serif; max-width: 600px; margin: 0 auto;\">\n          "
    ++ String.mk (nlToBr body.data)
    ++ "\n          <br><br>\n          <hr style=\"border: none; border-top: 1px solid #eee; margin: 20px 0;\">\n          <p style=\"color: #666; font-size: 12px;\">\n            This email was sent automatically via WhatsApp integration.\n          </p>\n        </div>\n      "

/-- Models `sendEnhancedEmail`: generate content (a failure there propagates before
any mail is sent), build the mail options, invoke the Mail Sender once,
return `{subject, body}`.  The second component lists the `sendMail`
invocations. -/
def sendEnhancedEmail (emailData : Json) (cfgUser : String)
    (contentModel : Except String String)
    (sendOutcome : MailOptions → Except String Unit) :
    Except String (String × String) × List MailOptions :=
  match generateEmailContent (jsFieldStr emailData "context") contentModel with
  | .error e => (.error e, [])
  | .ok (subject, body) =>
    let mo : MailOptions :=
      { fromAddr := cfgUser
        toAddr := jsFieldStr emailData "recipient"
        subject := subject
        html := emailHtml body
        text := body }
    match sendOutcome mo with
    | .error e => (.error e, [mo])
    | .ok _ => (.ok (subject, body), [mo])

/-- The `{content: [{type: "text", text}]}` payload a tool handler returns. -/
structure ToolResult where
  text : String
deriving DecidableEq, Repr

/-- The fixed reply for an unparseable message. -/
def unparseableText : String :=
  "Could not parse WhatsApp message. Expected format: 'recipient@email.com: context'"

/-- The success payload text of `processWhatsAppMessage`. -/
def successText (recipient subject body : String) : String :=
  "Email sent successfully!\nRecipient: " ++ recipient ++ "\nSubject: " ++ subject
    ++ "\nPreview: " ++ String.mk (body.data.take 100) ++ "..."

/-- Models `processWhatsAppMessage` (the `send_email_from_whatsapp` tool): parse;
on a miss return the fixed instructional payload; otherwise run
`sendEnhancedEmail` inside the try/catch that converts any thrown error
into an `Error: …` payload. -/
def processWhatsAppMessage (whatsappMessage : String)
    (parserModel : Except String String) (parseJson : String → Except String Json)
    (cfgUser : String) (contentModel : Except String String)
    (sendOutcome : MailOptions → Except String Unit) :
    ToolResult × List MailOptions :=
  match parseWhatsAppMessage whatsappMessage parserModel parseJson with
  | none => ({ text := unparseableText }, [])
  | some emailData =>
    match sendEnhancedEmail emailData cfgUser contentModel sendOutcome with
    | (.error e, trace) => ({ text := "Error: " ++ e }, trace)
    | (.ok (subject, body), trace) =>
      ({ text := successText (jsFieldStr emailData "recipient") subject body }, trace)

/-- Truthiness of a property read, with a thrown access counting as a
failed check (it lands in the enclosing `catch`). -/
def jsFieldTruthy (j : Json) (k : String) : Bool :=
  match jsGetField j k with
  | .error _ => false
  | .ok v => truthyOpt v

/-! ### Sanity checks against the JavaScript semantics -/

example : parseStrict "a@b.com: hello" = some ⟨"a@b.com", "hello"⟩ := by decide
example : parseStrict "addr@dom.tld:" = none := by decide
example : parseStrict "a@b.com: x\ny" = some ⟨"a@b.com", "x"⟩ := by decide
example : parseStrict "a@b.com:   " = some ⟨"a@b.com", ""⟩ := by decide
example : parseStrict "send to a@b.co.uk:  meet tomorrow " =
    some ⟨"a@b.co.uk", "meet tomorrow"⟩ := by decide

example : generateEmailContent "c" (.ok "Subject: Hello\n\nBody text") =
    .ok ("Hello", "Body text") := rfl
example : generateEmailContent "ctx" (.ok "hi there") =
    .ok ("Regarding: ctx...", "hi there") := rfl
example : generateEmailContent "c" (.ok "Subject: \t") = .ok ("", "") := rfl
example : generateEmailContent "c" (.ok "x Subject: Hi") = .ok ("Hi", "x") := rfl
example : generateEmailContent "c" (.error "boom") = .error "boom" := rfl

example :
    processWhatsAppMessage "a@b.com: hi" (.error "m") (fun _ => .error "p") "u"
      (.ok "Subject: S\n\nB") (fun _ => .ok ()) =
    ({ text := successText "a@b.com" "S" "B" }, [⟨"u", "a@b.com", "S", emailHtml "B", "B"⟩]) := rfl
example :
    processWhatsAppMessage "hello" (.error "m") (fun _ => .error "p") "u"
      (.ok "x") (fun _ => .ok ()) = ({ text := unparseableText }, []) := rfl
example :
    processWhatsAppMessage "a@b.com: hi" (.error "m") (fun _ => .error "p") "u"
      (.error "boom") (fun _ => .ok ()) = ({ text := "Error: boom" }, []) := rfl
example :
    processWhatsAppMessage "a@b.com: hi" (.error "m") (fun _ => .error "p") "u"
      (.ok "Subject: S\n\nB") (fun _ => .error "smtp down") =
    ({ text := "Error: smtp down" }, [⟨"u", "a@b.com", "S", emailHtml "B", "B"⟩]) := rfl

/-! ### General helper lemmas -/

lemma toolResult_eta (P : ToolResult × List MailOptions) :
    ((({ text := P.1.text } : ToolResult), P.2)) = P := by
  cases P with
  | mk a b => cases a; rfl

lemma firstSome_none_iff {α β : Type} (f : α → Option β) (l : List α) :
    firstSome f l = none ↔ ∀ a ∈ l, f a = none := by
  induction l with
  | nil => simp [firstSome]
  | cons x xs ih =>
    unfold firstSome
    cases hfx : f x with
    | some y => simp [hfx]
    | none => simpa [hfx] using ih

lemma firstSome_const {α β : Type} (f : α → Option β) (v : β) (l : List α)
    (hall : ∀ a ∈ l, f a = none ∨ f a = some v) (hex : ∃ a ∈ l, f a = some v) :
    firstSome f l = some v := by
  induction l with
  | nil => simp at hex
  | cons x xs ih =>
    unfold firstSome
    cases hfx : f x with
    | some y =>
      have := hall x (by simp)
      rw [hfx] at this
      rcases this with h | h
      · exact absurd h (by simp)
      · simpa using h
    | none =>
      apply ih
      · exact fun a ha => hall a (by simp [ha])
      · rcases hex with ⟨a, ha, hfa⟩
        rcases List.mem_cons.mp ha with rfl | ha2
        · rw [hfa] at hfx; exact absurd hfx (by simp)
        · exact ⟨a, ha2, hfa⟩

lemma firstSome_none_or_const {α β : Type} (f : α → Option β) (v : β) (l : List α)
    (hall : ∀ a ∈ l, f a = none ∨ f a = some v) :
    firstSome f l = none ∨ firstSome f l = some v := by
  induction l with
  | nil => simp [firstSome]
  | cons x xs ih =>
    unfold firstSome
    cases hfx : f x with
    | some y =>
      have := hall x (by simp)
      rw [hfx] at this
      rcases this with h | h
      · exact absurd h (by simp)
      · right; simpa using h
    | none => exact ih fun a ha => hall a (by simp [ha])

lemma mem_splitsDesc {cs : List Char} {a : List Char × List Char} :
    ∀ {n : Nat}, a ∈ splitsDesc cs n ↔ ∃ k, 1 ≤ k ∧ k ≤ n ∧ a = (cs.take k, cs.drop k)
  | 0 => by simp [splitsDesc]; omega
  | n + 1 => by
    rw [splitsDesc, List.mem_cons, mem_splitsDesc]
    constructor
    · rintro (rfl | ⟨k, h1, h2, rfl⟩)
      · exact ⟨n + 1, by omega, by omega, rfl⟩
      · exact ⟨k, h1, by omega, rfl⟩
    · rintro ⟨k, h1, h2, rfl⟩
      rcases Nat.lt_or_ge k (n + 1) with h | h
      · exact Or.inr ⟨k, h1, by omega, rfl⟩
      · have : k = n + 1 := by omega
        subst this; exact Or.inl rfl

/-! ### Character-class facts -/

lemma isLocalChar_not_space {c : Char} (h : isLocalChar c = true) : jsIsSpace c = false := by
  rw [isLocalChar, decide_eq_true_iff] at h
  rw [jsIsSpace, decide_eq_false_iff_not]
  omega

lemma isTldChar_not_space {c : Char} (h : isTldChar c = true) : jsIsSpace c = false := by
  rw [isTldChar, decide_eq_true_iff] at h
  rw [jsIsSpace, decide_eq_false_iff_not]
  omega

lemma isTldChar_isDomainChar {c : Char} (h : isTldChar c = true) : isDomainChar c = true := by
  rw [isTldChar, decide_eq_true_iff] at h
  rw [isDomainChar, decide_eq_true_iff]
  omega

lemma isDomainChar_ne_colon {c : Char} (h : isDomainChar c = true) : c ≠ ':' := by
  rintro rfl
  exact absurd h (by decide)

/-! ### Trim lemmas -/

lemma dropWhile_idem (p : Char → Bool) (l : List Char) :
    (l.dropWhile p).dropWhile p = l.dropWhile p := by
  induction l with
  | nil => rfl
  | cons x xs ih =>
    by_cases h : p x
    · simpa [List.dropWhile_cons_of_pos h] using ih
    · simp [List.dropWhile_cons_of_neg h]

lemma trimList_dropWhile (l : List Char) :
    trimList (l.dropWhile jsIsSpace) = trimList l := by
  unfold trimList
  rw [dropWhile_idem]

lemma trimList_eq_self_of_ends (a t : Char) (M : List Char)
    (ha : jsIsSpace a = false) (ht : jsIsSpace t = false) :
    trimList (a :: (M ++ [t])) = a :: (M ++ [t]) := by
  unfold trimList
  rw [List.dropWhile_cons_of_neg (by simp [ha])]
  rw [show (a :: (M ++ [t])).reverse = t :: (M.reverse ++ [a]) by simp]
  rw [List.dropWhile_cons_of_neg (by simp [ht])]
  simp

/-! ### Strict-regex lemmas (towards C1) -/

lemma firstSome_cons_some {α β : Type} {f : α → Option β} {x : α} {l : List α} {v : β}
    (h : f x = some v) : firstSome f (x :: l) = some v := by
  unfold firstSome
  rw [h]

lemma takeWhile_append_cons_of_neg {p : Char → Bool} {b : Char} (hb : p b = false) :
    ∀ (M r : List Char), (M ++ b :: r).takeWhile p = M.takeWhile p
  | [], r => by simp [List.takeWhile_cons, hb]
  | m :: M, r => by
    by_cases hm : p m
    · simp only [List.cons_append, List.takeWhile_cons_of_pos hm,
        takeWhile_append_cons_of_neg hb M r]
    · simp [List.takeWhile_cons_of_neg hm]

lemma trimList_ne_nil_imp {X : List Char} (h : trimList X ≠ []) :
    X.dropWhile jsIsSpace ≠ [] := by
  intro hdw
  apply h
  unfold trimList
  rw [hdw]
  rfl

lemma isTldChar_ne_colon {c : Char} (h : isTldChar c = true) : c ≠ ':' := by
  rintro rfl
  exact absurd h (by decide)

lemma matchAfterColon_space (X : List Char) (hX : ∀ c ∈ X, jsIsDot c = true)
    (hXne : X.dropWhile jsIsSpace ≠ []) :
    matchAfterColon (' ' :: X) = some (X.dropWhile jsIsSpace) := by
  have htw : (' ' :: X).takeWhile jsIsSpace = ' ' :: X.takeWhile jsIsSpace :=
    List.takeWhile_cons_of_pos (by decide)
  have hdrop : (' ' :: X).drop ((X.takeWhile jsIsSpace).length + 1) = X.dropWhile jsIsSpace := by
    show X.drop (X.takeWhile jsIsSpace).length = X.dropWhile jsIsSpace
    have hX2 : X.drop (X.takeWhile jsIsSpace).length
        = (X.takeWhile jsIsSpace ++ X.dropWhile jsIsSpace).drop (X.takeWhile jsIsSpace).length := by
      rw [List.takeWhile_append_dropWhile]
    rw [hX2, List.drop_left]
  have hcap : (X.dropWhile jsIsSpace).takeWhile jsIsDot = X.dropWhile jsIsSpace := by
    rw [List.takeWhile_eq_self_iff]
    intro x hx
    apply hX
    have hmem : x ∈ X.takeWhile jsIsSpace ++ X.dropWhile jsIsSpace :=
      List.mem_append_right _ hx
    rwa [List.takeWhile_append_dropWhile] at hmem
  have hhead : dotPlusCap ((' ' :: X).take ((X.takeWhile jsIsSpace).length + 1),
      (' ' :: X).drop ((X.takeWhile jsIsSpace).length + 1)) = some (X.dropWhile jsIsSpace) := by
    unfold dotPlusCap
    rw [hdrop]
    simp only [hcap]
    rw [if_neg hXne]
  have hlist : starSplits jsIsSpace (' ' :: X) =
      ((' ' :: X).take ((X.takeWhile jsIsSpace).length + 1),
       (' ' :: X).drop ((X.takeWhile jsIsSpace).length + 1)) ::
      (splitsDesc (' ' :: X) (X.takeWhile jsIsSpace).length ++ [([], ' ' :: X)]) := by
    unfold starSplits
    rw [htw, List.length_cons]
    rfl
  unfold matchAfterColon
  rw [hlist]
  exact firstSome_cons_some hhead

lemma tldStage_eq (lead M X : List Char)
    (hM : ∀ c ∈ M, isDomainChar c = true)
    (hX : ∀ c ∈ X, jsIsDot c = true)
    (hXne : X.dropWhile jsIsSpace ≠ []) :
    tldStage lead (M ++ ':' :: ' ' :: X) =
      if 2 ≤ M.length ∧ (∀ c ∈ M, isTldChar c = true)
      then some (lead ++ M, X.dropWhile jsIsSpace)
      else none := by
  have hsplits : plusSplits isTldChar (M ++ ':' :: ' ' :: X)
      = splitsDesc (M ++ ':' :: ' ' :: X) (M.takeWhile isTldChar).length := by
    unfold plusSplits
    rw [takeWhile_append_cons_of_neg (by decide : isTldChar ':' = false)]
  have hlen : (M.takeWhile isTldChar).length ≤ M.length :=
    ( List.takeWhile_prefix _).length_le
  have hcand : ∀ k, 1 ≤ k → k ≤ (M.takeWhile isTldChar).length →
      tldCand lead ((M ++ ':' :: ' ' :: X).take k, (M ++ ':' :: ' ' :: X).drop k) = none ∨
      (k = M.length ∧ 2 ≤ M.length ∧ (∀ c ∈ M, isTldChar c = true) ∧
       tldCand lead ((M ++ ':' :: ' ' :: X).take k, (M ++ ':' :: ' ' :: X).drop k)
         = some (lead ++ M, X.dropWhile jsIsSpace)) := by
    intro k hk1 hk2
    have hkM : k ≤ M.length := le_trans hk2 hlen
    have htake : (M ++ ':' :: ' ' :: X).take k = M.take k :=
      List.take_append_of_le_length hkM
    have hdrop : (M ++ ':' :: ' ' :: X).drop k = M.drop k ++ ':' :: ' ' :: X :=
      List.drop_append_of_le_length hkM
    have hlt : (M.take k).length = k := by rw [List.length_take]; omega
    by_cases hk2' : k < 2
    · left
      unfold tldCand
      rw [htake]
      simp only [hlt]
      rw [if_pos hk2']
    · cases hdk : M.drop k with
      | nil =>
        right
        have hkeq : M.length ≤ k := List.drop_eq_nil_iff.mp hdk
        have hkM' : k = M.length := le_antisymm hkM hkeq
        have hall : ∀ c ∈ M, isTldChar c = true := by
          have hpre : M.takeWhile isTldChar = M :=
            ( List.takeWhile_prefix _).eq_of_length (by omega)
          exact fun c hc => List.takeWhile_eq_self_iff.mp hpre c hc
        refine ⟨hkM', by omega, hall, ?_⟩
        unfold tldCand
        rw [htake, hdrop, hdk, hkM', List.take_length]
        simp only [List.nil_append]
        rw [if_neg (by omega : ¬ M.length < 2)]
        show (if (':' : Char) = ':'
          then (matchAfterColon (' ' :: X)).map (fun cap => (lead ++ M, cap))
          else none) = some (lead ++ M, X.dropWhile jsIsSpace)
        rw [if_pos rfl, matchAfterColon_space X hX hXne]
        rfl
      | cons c M2 =>
        left
        have hc : c ∈ M := List.mem_of_mem_drop (by rw [hdk]; exact List.mem_cons_self _ _)
        have hcne : c ≠ ':' := isDomainChar_ne_colon (hM c hc)
        unfold tldCand
        rw [htake, hdrop, hdk, List.cons_append]
        simp only [hlt]
        rw [if_neg (by omega : ¬ k < 2)]
        show (if c = ':'
          then (matchAfterColon (M2 ++ ':' :: ' ' :: X)).map
            (fun cap => (lead ++ M.take k, cap))
          else none) = none
        rw [if_neg hcne]
  by_cases hcond : 2 ≤ M.length ∧ (∀ c ∈ M, isTldChar c = true)
  · rw [if_pos hcond]
    have hself : M.takeWhile isTldChar = M := List.takeWhile_eq_self_iff.mpr hcond.2
    unfold tldStage
    rw [hsplits]
    apply firstSome_const
    · intro cand hmem
      obtain ⟨k, hk1, hk2, rfl⟩ := mem_splitsDesc.mp hmem
      rcases hcand k hk1 hk2 with h | ⟨_, _, _, h⟩
      · exact Or.inl h
      · exact Or.inr h
    · refine ⟨((M ++ ':' :: ' ' :: X).take M.length, (M ++ ':' :: ' ' :: X).drop M.length),
        mem_splitsDesc.mpr ⟨M.length, by omega, by rw [hself], rfl⟩, ?_⟩
      rcases hcand M.length (by omega) (by rw [hself]) with h | ⟨_, _, _, h⟩
      · exfalso
        rw [List.take_left' rfl, List.drop_left' rfl] at h
        unfold tldCand at h
        rw [if_neg (by omega : ¬ M.length < 2)] at h
        rw [show (match (':' :: ' ' :: X : List Char) with
          | c :: r3 =>
            if c = ':' then (matchAfterColon r3).map (fun cap => (lead ++ M, cap))
            else none
          | [] => none)
          = (matchAfterColon (' ' :: X)).map (fun cap => (lead ++ M, cap)) from rfl] at h
        rw [matchAfterColon_space X hX hXne] at h
        exact absurd h (by simp)
      · exact h
  · rw [if_neg hcond]
    unfold tldStage
    rw [hsplits, firstSome_none_iff]
    intro cand hmem
    obtain ⟨k, hk1, hk2, rfl⟩ := mem_splitsDesc.mp hmem
    rcases hcand k hk1 hk2 with h | ⟨_, h2, h3, _⟩
    · exact h
    · exact absurd ⟨h2, h3⟩ hcond

lemma domStage_eq (loc : List Char) (d : Char) (D T X : List Char)
    (hD : ∀ c ∈ d :: D, isDomainChar c = true)
    (hT : ∀ c ∈ T, isTldChar c = true) (hT2 : 2 ≤ T.length)
    (hX : ∀ c ∈ X, jsIsDot c = true) (hXne : X.dropWhile jsIsSpace ≠ []) :
    domStage loc (((d :: D) ++ '.' :: T) ++ ':' :: ' ' :: X)
      = some (loc ++ '@' :: ((d :: D) ++ '.' :: T), X.dropWhile jsIsSpace) := by
  have hDT : ∀ c ∈ (d :: D) ++ '.' :: T, isDomainChar c = true := by
    intro c hc
    rcases List.mem_append.mp hc with h | h
    · exact hD c h
    · rcases List.mem_cons.mp h with rfl | h2
      · decide
      · exact isTldChar_isDomainChar (hT c h2)
  have hsplits : plusSplits isDomainChar (((d :: D) ++ '.' :: T) ++ ':' :: ' ' :: X)
      = splitsDesc (((d :: D) ++ '.' :: T) ++ ':' :: ' ' :: X) ((d :: D) ++ '.' :: T).length := by
    unfold plusSplits
    rw [takeWhile_append_cons_of_neg (by decide : isDomainChar ':' = false),
      List.takeWhile_eq_self_iff.mpr hDT]
  have hcand : ∀ k, 1 ≤ k → k ≤ ((d :: D) ++ '.' :: T).length →
      domCand loc ((((d :: D) ++ '.' :: T) ++ ':' :: ' ' :: X).take k,
        (((d :: D) ++ '.' :: T) ++ ':' :: ' ' :: X).drop k) = none ∨
      domCand loc ((((d :: D) ++ '.' :: T) ++ ':' :: ' ' :: X).take k,
        (((d :: D) ++ '.' :: T) ++ ':' :: ' ' :: X).drop k)
        = some (loc ++ '@' :: ((d :: D) ++ '.' :: T), X.dropWhile jsIsSpace) := by
    intro k hk1 hk2
    have htake : (((d :: D) ++ '.' :: T) ++ ':' :: ' ' :: X).take k
        = ((d :: D) ++ '.' :: T).take k := List.take_append_of_le_length hk2
    have hdrop : (((d :: D) ++ '.' :: T) ++ ':' :: ' ' :: X).drop k
        = ((d :: D) ++ '.' :: T).drop k ++ ':' :: ' ' :: X :=
      List.drop_append_of_le_length hk2
    cases hdk : ((d :: D) ++ '.' :: T).drop k with
    | nil =>
      left
      unfold domCand
      rw [htake, hdrop, hdk, List.nil_append]
      show (if (':' : Char) = '.'
        then tldStage (loc ++ '@' :: ((d :: D) ++ '.' :: T).take k ++ ['.']) (' ' :: X)
        else none) = none
      rw [if_neg (by decide)]
    | cons c M =>
      by_cases hcdot : c = '.'
      · subst hcdot
        have hMdom : ∀ x ∈ M, isDomainChar x = true := by
          intro x hx
          exact hDT x (List.mem_of_mem_drop (by rw [hdk]; exact List.mem_cons_of_mem _ hx))
        have hDTeq : ((d :: D) ++ '.' :: T).take k ++ '.' :: M = (d :: D) ++ '.' :: T := by
          conv_rhs => rw [← List.take_append_drop k ((d :: D) ++ '.' :: T), hdk]
        unfold domCand
        rw [htake, hdrop, hdk, List.cons_append]
        show tldStage (loc ++ '@' :: ((d :: D) ++ '.' :: T).take k ++ ['.'])
            (M ++ ':' :: ' ' :: X) = none ∨
          tldStage (loc ++ '@' :: ((d :: D) ++ '.' :: T).take k ++ ['.'])
            (M ++ ':' :: ' ' :: X)
            = some (loc ++ '@' :: ((d :: D) ++ '.' :: T), X.dropWhile jsIsSpace)
        rw [tldStage_eq (loc ++ '@' :: ((d :: D) ++ '.' :: T).take k ++ ['.']) M X hMdom hX hXne]
        by_cases hcond : 2 ≤ M.length ∧ (∀ x ∈ M, isTldChar x = true)
        · right
          rw [if_pos hcond]
          have hDTeq2 := hDTeq
          simp only [List.cons_append] at hDTeq2
          have : (loc ++ '@' :: ((d :: D) ++ '.' :: T).take k ++ ['.']) ++ M
              = loc ++ '@' :: ((d :: D) ++ '.' :: T) := by
            simp only [List.append_assoc, List.cons_append, List.singleton_append,
              List.nil_append]
            conv_rhs => rw [← hDTeq2]
          rw [this]
        · left
          rw [if_neg hcond]
      · left
        unfold domCand
        rw [htake, hdrop, hdk, List.cons_append]
        show (if c = '.'
          then tldStage (loc ++ '@' :: ((d :: D) ++ '.' :: T).take k ++ ['.'])
            (M ++ ':' :: ' ' :: X)
          else none) = none
        rw [if_neg hcdot]
  unfold domStage
  rw [hsplits]
  apply firstSome_const
  · intro cand hmem
    obtain ⟨k, hk1, hk2, rfl⟩ := mem_splitsDesc.mp hmem
    exact hcand k hk1 hk2
  · have hlb : (d :: D).length ≤ ((d :: D) ++ '.' :: T).length := by
      rw [List.length_append]
      omega
    refine ⟨((((d :: D) ++ '.' :: T) ++ ':' :: ' ' :: X).take (d :: D).length,
      (((d :: D) ++ '.' :: T) ++ ':' :: ' ' :: X).drop (d :: D).length),
      mem_splitsDesc.mpr ⟨(d :: D).length, by simp, hlb, rfl⟩, ?_⟩
    have htake : (((d :: D) ++ '.' :: T) ++ ':' :: ' ' :: X).take (d :: D).length
        = d :: D := by
      rw [List.take_append_of_le_length hlb, List.take_left]
    have hdrop : (((d :: D) ++ '.' :: T) ++ ':' :: ' ' :: X).drop (d :: D).length
        = '.' :: (T ++ ':' :: ' ' :: X) := by
      rw [List.drop_append_of_le_length hlb, List.drop_left, List.cons_append]
    unfold domCand
    rw [htake, hdrop]
    show tldStage (loc ++ '@' :: (d :: D) ++ ['.']) (T ++ ':' :: ' ' :: X)
      = some (loc ++ '@' :: ((d :: D) ++ '.' :: T), X.dropWhile jsIsSpace)
    rw [tldStage_eq (loc ++ '@' :: (d :: D) ++ ['.']) T X
        (fun c hc => isTldChar_isDomainChar (hT c hc)) hX hXne,
      if_pos ⟨hT2, hT⟩]
    have : (loc ++ '@' :: (d :: D) ++ ['.']) ++ T = loc ++ '@' :: ((d :: D) ++ '.' :: T) := by
      simp [List.append_assoc]
    rw [this]

lemma matchEmailAt_eq (a : Char) (A : List Char) (d : Char) (D T X : List Char)
    (hA : ∀ c ∈ a :: A, isLocalChar c = true)
    (hD : ∀ c ∈ d :: D, isDomainChar c = true)
    (hT : ∀ c ∈ T, isTldChar c = true) (hT2 : 2 ≤ T.length)
    (hX : ∀ c ∈ X, jsIsDot c = true) (hXne : X.dropWhile jsIsSpace ≠ []) :
    matchEmailAt ((a :: A) ++ '@' :: (((d :: D) ++ '.' :: T) ++ ':' :: ' ' :: X))
      = some ((a :: A) ++ '@' :: ((d :: D) ++ '.' :: T), X.dropWhile jsIsSpace) := by
  have htw : ((a :: A) ++ '@' :: (((d :: D) ++ '.' :: T) ++ ':' :: ' ' :: X)).takeWhile
      isLocalChar = a :: A := by
    rw [takeWhile_append_cons_of_neg (by decide : isLocalChar '@' = false),
      List.takeWhile_eq_self_iff.mpr hA]
  unfold matchEmailAt plusSplits
  rw [htw, List.length_cons,
    show splitsDesc ((a :: A) ++ '@' :: (((d :: D) ++ '.' :: T) ++ ':' :: ' ' :: X))
        (A.length + 1)
      = (((a :: A) ++ '@' :: (((d :: D) ++ '.' :: T) ++ ':' :: ' ' :: X)).take (A.length + 1),
         ((a :: A) ++ '@' :: (((d :: D) ++ '.' :: T) ++ ':' :: ' ' :: X)).drop (A.length + 1)) ::
        splitsDesc ((a :: A) ++ '@' :: (((d :: D) ++ '.' :: T) ++ ':' :: ' ' :: X)) A.length
      from rfl]
  apply firstSome_cons_some
  rw [List.take_left' (by rw [List.length_cons]),
    List.drop_left' (by rw [List.length_cons])]
  unfold locCand
  show domStage (a :: A) (((d :: D) ++ '.' :: T) ++ ':' :: ' ' :: X)
    = some ((a :: A) ++ '@' :: ((d :: D) ++ '.' :: T), X.dropWhile jsIsSpace)
  exact domStage_eq (a :: A) d D T X hD hT hT2 hX hXne

lemma searchEmail_eq (a : Char) (A : List Char) (d : Char) (D T X : List Char)
    (hA : ∀ c ∈ a :: A, isLocalChar c = true)
    (hD : ∀ c ∈ d :: D, isDomainChar c = true)
    (hT : ∀ c ∈ T, isTldChar c = true) (hT2 : 2 ≤ T.length)
    (hX : ∀ c ∈ X, jsIsDot c = true) (hXne : X.dropWhile jsIsSpace ≠ []) :
    searchEmail ((a :: A) ++ '@' :: (((d :: D) ++ '.' :: T) ++ ':' :: ' ' :: X))
      = some ((a :: A) ++ '@' :: ((d :: D) ++ '.' :: T), X.dropWhile jsIsSpace) := by
  rw [List.cons_append]
  unfold searchEmail
  rw [← List.cons_append, matchEmailAt_eq a A d D T X hA hD hT hT2 hX hXne]

lemma subjLineAt_none_of {cs : List Char} (h : matchSubjectAt cs = none) :
    subjLineAt cs = none := by
  unfold matchSubjectAt at h
  unfold subjLineAt
  cases hci : ciLit subjectLit cs with
  | none => rfl
  | some rest =>
    rw [hci] at h
    unfold matchAfterColon at h
    rw [firstSome_none_iff] at h ⊢
    intro sp hsp
    have h2 := h sp hsp
    by_cases hr : sp.2.takeWhile jsIsDot = []
    · simp [hr]
    · exact absurd h2 (by simp [dotPlusCap, hr])

lemma replaceSubj_of_no_match : ∀ cs : List Char, matchSubject cs = none → replaceSubj cs = cs
  | [], _ => rfl
  | c :: cs, h => by
    unfold matchSubject at h
    cases hm : matchSubjectAt (c :: cs) with
    | some r => rw [hm] at h; exact absurd h (by simp)
    | none =>
      rw [hm] at h
      unfold replaceSubj
      rw [subjLineAt_none_of hm, replaceSubj_of_no_match cs h]

lemma fallbackSubject_ne_empty (ctx : String) : fallbackSubject ctx ≠ "" := by
  intro h
  have hl : (fallbackSubject ctx).length = 0 := by rw [h]; rfl
  unfold fallbackSubject at hl
  rw [String.length_append, String.length_append] at hl
  rw [show ("Regarding: " : String).length = 11 from rfl] at hl
  omega

/-! ### Fallback-path lemmas -/

lemma checkParsed_eq (j : Json) :
    checkParsed j =
      if jsFieldTruthy j "recipient" && jsFieldTruthy j "context" then some j else none := by
  unfold checkParsed jsFieldTruthy
  cases hr : jsGetField j "recipient" with
  | error _ => simp
  | ok r =>
    cases hc : jsGetField j "context" with
    | error _ => by_cases h : truthyOpt r <;> simp [h]
    | ok c => by_cases h : truthyOpt r <;> by_cases h2 : truthyOpt c <;> simp [h, h2]

/-! ### Claim C2 (corrected) -/

/-- C2 counterexample: a model output that parses as a JSON object with both
a `recipient` and a `context` field present — but `recipient` the empty
string — makes the Parser return "no match" (`none`), not that pair, because
the code tests truthiness, not presence. -/
theorem fallback_presence_counterexample :
    jsGetField (Json.obj [("recipient", Json.str ""), ("context", Json.str "c")]) "recipient"
        = Except.ok (some (Json.str "")) ∧
    jsGetField (Json.obj [("recipient", Json.str ""), ("context", Json.str "c")]) "context"
        = Except.ok (some (Json.str "c")) ∧
    aiFallback (Except.ok "t")
        (fun _ => Except.ok (Json.obj [("recipient", Json.str ""), ("context", Json.str "c")]))
        = none :=
  ⟨rfl, rfl, rfl⟩

/-- C2 (amended): on the fallback path, a model output that parses as JSON
with both fields *truthy* is returned as the pair; a model-call failure, an
output that is not valid JSON, or a parsed value on which the
recipient/context check fails (in particular a missing field) all yield
"no match" (`none`), and no failure is propagated — `aiFallback` is total
with an `Option` result. -/
theorem fallback_behaviour (pj : String → Except String Json) (text e : String) (j : Json) :
    aiFallback (Except.error e) pj = none ∧
    (pj text = Except.error e → aiFallback (Except.ok text) pj = none) ∧
    (pj text = Except.ok j → jsFieldTruthy j "recipient" = true →
      jsFieldTruthy j "context" = true → aiFallback (Except.ok text) pj = some j) ∧
    (pj text = Except.ok j →
      (jsFieldTruthy j "recipient" = false ∨ jsFieldTruthy j "context" = false) →
      aiFallback (Except.ok text) pj = none) := by
  have hred : aiFallback (Except.ok text) pj =
      match pj text with
      | Except.error _ => none
      | Except.ok parsed => checkParsed parsed := rfl
  refine ⟨rfl, ?_, ?_, ?_⟩
  · intro h
    rw [hred, h]
  · intro h h1 h2
    rw [hred, h]
    show checkParsed j = some j
    rw [checkParsed_eq, h1, h2]
    rfl
  · intro h hf
    rw [hred, h]
    show checkParsed j = none
    rw [checkParsed_eq]
    rcases hf with hf | hf <;> rw [hf] <;> simp

/-- Witness for C2 at concrete inputs: a good JSON object is returned, a
failing model call yields `none`. -/
theorem fallback_behaviour_witness :
    aiFallback (Except.ok "t")
        (fun _ => Except.ok (Json.obj [("recipient", Json.str "a@b.com"), ("context", Json.str "c")]))
        = some (Json.obj [("recipient", Json.str "a@b.com"), ("context", Json.str "c")]) ∧
    aiFallback (Except.error "quota")
        (fun _ => Except.ok (Json.obj [("recipient", Json.str "a@b.com"), ("context", Json.str "c")]))
        = none :=
  ⟨(fallback_behaviour
      (fun _ => Except.ok (Json.obj [("recipient", Json.str "a@b.com"), ("context", Json.str "c")]))
      "t" "quota"
      (Json.obj [("recipient", Json.str "a@b.com"), ("context", Json.str "c")])).2.2.1
      rfl rfl rfl,
   (fallback_behaviour
      (fun _ => Except.ok (Json.obj [("recipient", Json.str "a@b.com"), ("context", Json.str "c")]))
      "t" "quota"
      (Json.obj [("recipient", Json.str "a@b.com"), ("context", Json.str "c")])).1⟩

/-! ### Claim C10 (confirmed) -/

/-- C10: the fallback checks the two fields for truthiness, not presence —
if both are present but either value is falsy (e.g. the empty string), the
Parser returns `none`. -/
theorem fallback_truthiness (pj : String → Except String Json) (text : String)
    (j r c : Json)
    (hpj : pj text = Except.ok j)
    (hr : jsGetField j "recipient" = Except.ok (some r))
    (hc : jsGetField j "context" = Except.ok (some c))
    (hfalsy : jsTruthy r = false ∨ jsTruthy c = false) :
    aiFallback (Except.ok text) pj = none := by
  have hred : aiFallback (Except.ok text) pj =
      match pj text with
      | Except.error _ => none
      | Except.ok parsed => checkParsed parsed := rfl
  rw [hred, hpj]
  show checkParsed j = none
  rw [checkParsed_eq]
  unfold jsFieldTruthy
  rw [hr, hc]
  rcases hfalsy with hf | hf <;> simp [truthyOpt, hf]

/-- Witness for C10: both fields present, `context` empty, hence `none`. -/
theorem fallback_truthiness_witness :
    aiFallback (Except.ok "out")
        (fun _ => Except.ok (Json.obj [("recipient", Json.str "r@s.io"), ("context", Json.str "")]))
        = none :=
  fallback_truthiness
    (fun _ => Except.ok (Json.obj [("recipient", Json.str "r@s.io"), ("context", Json.str "")]))
    "out" (Json.obj [("recipient", Json.str "r@s.io"), ("context", Json.str "")])
    (Json.str "r@s.io") (Json.str "") rfl rfl rfl (Or.inr rfl)

/-! ### Claim C9 (confirmed) -/

/-- C9: `generateEmailContent` has no local error handling — a model-call
failure propagates unchanged to the caller. -/
theorem generateEmailContent_propagates_error (context e : String) :
    generateEmailContent context (Except.error e) = Except.error e := rfl

/-! ### Claim C8 (confirmed) -/

/-- C8: on the input `"addr@dom.tld:"` (address, colon, nothing after) the
strict regex does not match, and the parser proceeds to the
generative-model fallback. -/
theorem parse_empty_context_falls_back :
    parseStrict "addr@dom.tld:" = none ∧
    ∀ (m : Except String String) (pj : String → Except String Json),
      parseWhatsAppMessage "addr@dom.tld:" m pj = aiFallback m pj := by
  refine ⟨by decide, fun m pj => ?_⟩
  unfold parseWhatsAppMessage
  rw [show parseStrict "addr@dom.tld:" = none from by decide]

/-! ### Claim C5 (confirmed) -/

/-- C5: when the Parser returns "no match", `processWhatsAppMessage` returns
the fixed instructional payload and the Mail Sender trace is empty — no
`sendMail` call occurs. -/
theorem process_no_match_frame (msg : String) (pm : Except String String)
    (pj : String → Except String Json) (u : String) (cm : Except String String)
    (so : MailOptions → Except String Unit)
    (h : parseWhatsAppMessage msg pm pj = none) :
    processWhatsAppMessage msg pm pj u cm so = ({ text := unparseableText }, []) := by
  unfold processWhatsAppMessage
  rw [h]

/-- Witness for C5 at a concrete unparseable message. -/
theorem process_no_match_frame_witness :
    parseWhatsAppMessage "hello" (Except.error "m") (fun _ => Except.error "p") = none ∧
    processWhatsAppMessage "hello" (Except.error "m") (fun _ => Except.error "p") "u"
        (Except.ok "x") (fun _ => Except.ok ()) = ({ text := unparseableText }, []) :=
  ⟨rfl, process_no_match_frame "hello" (Except.error "m") (fun _ => Except.error "p") "u"
      (Except.ok "x") (fun _ => Except.ok ()) rfl⟩

/-! ### Claim C3 (confirmed) -/

/-- C3: `processWhatsAppMessage` is total — every run yields a normal text
payload — and any failure inside generation or sending (the `Except.error`
of the pipeline, including a Mail Sender rejection) is converted into a
payload whose text carries the error's description. -/
theorem process_never_throws (msg : String) (pm : Except String String)
    (pj : String → Except String Json) (u : String) (cm : Except String String)
    (so : MailOptions → Except String Unit) :
    (∃ t trace, processWhatsAppMessage msg pm pj u cm so = ({ text := t }, trace)) ∧
    ∀ (j : Json) (e : String) (trace : List MailOptions),
      parseWhatsAppMessage msg pm pj = some j →
      sendEnhancedEmail j u cm so = (Except.error e, trace) →
      processWhatsAppMessage msg pm pj u cm so = ({ text := "Error: " ++ e }, trace) := by
  constructor
  · exact ⟨(processWhatsAppMessage msg pm pj u cm so).1.text,
      (processWhatsAppMessage msg pm pj u cm so).2, (toolResult_eta _).symm⟩
  · intro j e trace hparse hsend
    unfold processWhatsAppMessage
    rw [hparse]
    show (match sendEnhancedEmail j u cm so with
      | (Except.error e2, trace2) => (({ text := "Error: " ++ e2 } : ToolResult), trace2)
      | (Except.ok (subject, body), trace2) =>
        (({ text := successText (jsFieldStr j "recipient") subject body } : ToolResult), trace2))
      = ({ text := "Error: " ++ e }, trace)
    rw [hsend]

/-- Witness for C3: a parseable message whose content generation fails with
"boom" produces the `Error: boom` payload (and no mail is sent). -/
theorem process_never_throws_witness :
    parseWhatsAppMessage "a@b.com: hi" (Except.error "m") (fun _ => Except.error "p")
        = some (Json.obj [("recipient", Json.str "a@b.com"), ("context", Json.str "hi")]) ∧
    processWhatsAppMessage "a@b.com: hi" (Except.error "m") (fun _ => Except.error "p") "u"
        (Except.error "boom") (fun _ => Except.ok ())
        = ({ text := "Error: boom" }, []) :=
  ⟨rfl,
   (process_never_throws "a@b.com: hi" (Except.error "m") (fun _ => Except.error "p") "u"
      (Except.error "boom") (fun _ => Except.ok ())).2
      (Json.obj [("recipient", Json.str "a@b.com"), ("context", Json.str "hi")])
      "boom" [] rfl rfl⟩

/-! ### Claim C6 (corrected) -/

/-- C6 counterexample: the subject regex `/Subject:\s*(.+)/i` is not
anchored to a line start.  The response `"x Subject: Hi"` has no line
beginning with `Subject:` (it is a single line, and `Subject:` is not its
prefix), yet the extraction returns subject `"Hi"`, not the fallback the
claim demands. -/
theorem subject_line_counterexample :
    ("x Subject: Hi" : String).data.contains '\n' = false ∧
    ("x Subject: Hi" : String).data.take 8 ≠ ("Subject:" : String).data ∧
    generateEmailContent "c" (Except.ok "x Subject: Hi") = Except.ok ("Hi", "x") ∧
    ("Hi" : String) ≠ fallbackSubject "c" :=
  ⟨by decide, by decide, rfl, by decide⟩

/-- C6 (amended): the extraction matches the first occurrence of `Subject:`
(case-insensitive) anywhere in the response, not only at a line start.  For
`"Subject: Hello\n\nBody text"` it returns `{subject := "Hello",
body := "Body text"}`; when the pattern `/Subject:\s*(.+)/i` finds no match
at all, it returns the fallback subject (`Regarding: ` + first 50
characters of the context + `...`) with the body equal to the full trimmed
model response. -/
theorem subject_extraction (ctx content : String)
    (h : matchSubject content.data = none) :
    generateEmailContent "c" (Except.ok "Subject: Hello\n\nBody text")
        = Except.ok ("Hello", "Body text") ∧
    generateEmailContent ctx (Except.ok content)
        = Except.ok (fallbackSubject ctx, jsTrim content) := by
  refine ⟨rfl, ?_⟩
  have hred : generateEmailContent ctx (Except.ok content) = Except.ok
      ((match matchSubject content.data with
        | some cap => String.mk (trimList cap)
        | none => fallbackSubject ctx),
       String.mk (trimList (replaceSubj content.data))) := rfl
  rw [hred, h, replaceSubj_of_no_match _ h]
  rfl

/-- Witness for C6 at a concrete response with no `Subject:` match. -/
theorem subject_extraction_witness :
    matchSubject ("Plain reply" : String).data = none ∧
    generateEmailContent "w" (Except.ok "Plain reply")
        = Except.ok (fallbackSubject "w", jsTrim "Plain reply") :=
  ⟨rfl, (subject_extraction "w" "Plain reply" rfl).2⟩

/-! ### Claim C7 (corrected) -/

/-- C7 counterexample: for the model response `"Subject: \t"` the regex
capture is the lone tab, which trims to the empty string — the generator
returns an *empty* subject, refuting the unconditional non-emptiness
claim. -/
theorem content_empty_subject_counterexample :
    generateEmailContent "c" (Except.ok "Subject: \t") = Except.ok ("", "") ∧
    ("" : String).length = 0 :=
  ⟨rfl, rfl⟩

/-- C7 (amended): for every context and model response, the generator
returns the remainder of the response (subject-line match removed, trimmed)
as the body — even when that remainder is empty — and a subject equal to the
trimmed regex capture when the subject pattern matches, else the fallback
subject.  The subject can be empty only when the pattern matched (a
whitespace-only capture); the fallback subject is never empty. -/
theorem content_generator_guarantee (ctx content s b : String)
    (h : generateEmailContent ctx (Except.ok content) = Except.ok (s, b)) :
    b = String.mk (trimList (replaceSubj content.data)) ∧
    s = ((matchSubject content.data).map (fun cap => String.mk (trimList cap))).getD
        (fallbackSubject ctx) ∧
    (s = "" → matchSubject content.data ≠ none) ∧
    fallbackSubject ctx ≠ "" := by
  have hred : generateEmailContent ctx (Except.ok content) = Except.ok
      ((match matchSubject content.data with
        | some cap => String.mk (trimList cap)
        | none => fallbackSubject ctx),
       String.mk (trimList (replaceSubj content.data))) := rfl
  have hpair := (hred.symm.trans h)
  rw [Except.ok.injEq, Prod.mk.injEq] at hpair
  obtain ⟨hs, hb⟩ := hpair
  refine ⟨hb.symm, ?_, ?_, fallbackSubject_ne_empty ctx⟩
  · rw [← hs]
    cases matchSubject content.data <;> rfl
  · intro hse hnone
    rw [hnone] at hs
    exact fallbackSubject_ne_empty ctx (hs.trans hse)

/-! ### Claim C4 (confirmed) -/

/-- Reduction of `sendEnhancedEmail` once content generation has
succeeded. -/
lemma sendEnhancedEmail_ok (j : Json) (u content S B : String)
    (so : MailOptions → Except String Unit)
    (hgen : generateEmailContent (jsFieldStr j "context") (Except.ok content)
      = Except.ok (S, B)) :
    sendEnhancedEmail j u (Except.ok content) so =
      match so { fromAddr := u, toAddr := jsFieldStr j "recipient", subject := S,
                 html := emailHtml B, text := B } with
      | .error e => (.error e,
          [{ fromAddr := u, toAddr := jsFieldStr j "recipient", subject := S,
             html := emailHtml B, text := B }])
      | .ok _ => (.ok (S, B),
          [{ fromAddr := u, toAddr := jsFieldStr j "recipient", subject := S,
             html := emailHtml B, text := B }]) := by
  unfold sendEnhancedEmail
  rw [hgen]

/-- C4: for a message the Parser parses (to `j`), once the Content Generator
produced `(S, B)`, exactly one `sendMail` invocation occurs, with `to` equal
to the parsed recipient and `subject` equal to the generated subject —
whether or not the Mail Sender accepts; and on acceptance the returned text
is the success payload, which spells out that recipient and subject. -/
theorem process_parsed_sends_once (msg : String) (pm : Except String String)
    (pj : String → Except String Json) (u content S B : String)
    (so : MailOptions → Except String Unit) (j : Json)
    (hparse : parseWhatsAppMessage msg pm pj = some j)
    (hgen : generateEmailContent (jsFieldStr j "context") (Except.ok content)
      = Except.ok (S, B)) :
    (processWhatsAppMessage msg pm pj u (Except.ok content) so).2
        = [{ fromAddr := u, toAddr := jsFieldStr j "recipient", subject := S,
             html := emailHtml B, text := B }] ∧
    (so { fromAddr := u, toAddr := jsFieldStr j "recipient", subject := S,
          html := emailHtml B, text := B } = Except.ok () →
      processWhatsAppMessage msg pm pj u (Except.ok content) so
          = ({ text := successText (jsFieldStr j "recipient") S B },
             [{ fromAddr := u, toAddr := jsFieldStr j "recipient", subject := S,
                html := emailHtml B, text := B }])) := by
  have hproc : processWhatsAppMessage msg pm pj u (Except.ok content) so =
      match so { fromAddr := u, toAddr := jsFieldStr j "recipient", subject := S,
                 html := emailHtml B, text := B } with
      | .error e => ({ text := "Error: " ++ e },
          [{ fromAddr := u, toAddr := jsFieldStr j "recipient", subject := S,
             html := emailHtml B, text := B }])
      | .ok _ => ({ text := successText (jsFieldStr j "recipient") S B },
          [{ fromAddr := u, toAddr := jsFieldStr j "recipient", subject := S,
             html := emailHtml B, text := B }]) := by
    unfold processWhatsAppMessage
    rw [hparse]
    show (match sendEnhancedEmail j u (Except.ok content) so with
      | (Except.error e2, trace2) => (({ text := "Error: " ++ e2 } : ToolResult), trace2)
      | (Except.ok (s2, b2), trace2) =>
        (({ text := successText (jsFieldStr j "recipient") s2 b2 } : ToolResult), trace2)) = _
    rw [sendEnhancedEmail_ok j u content S B so hgen]
    cases so { fromAddr := u, toAddr := jsFieldStr j "recipient", subject := S,
               html := emailHtml B, text := B } <;> rfl
  constructor
  · rw [hproc]
    cases so { fromAddr := u, toAddr := jsFieldStr j "recipient", subject := S,
               html := emailHtml B, text := B } <;> rfl
  · intro hok
    rw [hproc, hok]

/-- Witness for C4 at a concrete parseable message with an accepting Mail
Sender: the trace holds exactly one mail with matching fields, and the
result is the success payload. -/
theorem process_parsed_sends_once_witness :
    (processWhatsAppMessage "a@b.com: hi" (Except.error "m") (fun _ => Except.error "p") "u"
        (Except.ok "Subject: S\n\nB") (fun _ => Except.ok ())).2
      = [{ fromAddr := "u", toAddr := "a@b.com", subject := "S",
           html := emailHtml "B", text := "B" }] ∧
    processWhatsAppMessage "a@b.com: hi" (Except.error "m") (fun _ => Except.error "p") "u"
        (Except.ok "Subject: S\n\nB") (fun _ => Except.ok ())
      = ({ text := successText "a@b.com" "S" "B" },
         [{ fromAddr := "u", toAddr := "a@b.com", subject := "S",
            html := emailHtml "B", text := "B" }]) := by
  refine ⟨?_, ?_⟩
  · exact (process_parsed_sends_once "a@b.com: hi" (Except.error "m") (fun _ => Except.error "p")
      "u" "Subject: S\n\nB" "S" "B" (fun _ => Except.ok ())
      (Json.obj [("recipient", Json.str "a@b.com"), ("context", Json.str "hi")]) rfl rfl).1
  · exact (process_parsed_sends_once "a@b.com: hi" (Except.error "m") (fun _ => Except.error "p")
      "u" "Subject: S\n\nB" "S" "B" (fun _ => Except.ok ())
      (Json.obj [("recipient", Json.str "a@b.com"), ("context", Json.str "hi")]) rfl rfl).2 rfl

/-! ### Claim C1 (corrected) -/

/-- C1 counterexample: `"a@b.com: x\ny"` has the claimed shape with text
`"x\ny"`, which is non-empty after trimming (`trim` leaves it unchanged) —
but since `.` does not match a line terminator, the strict match captures
only `"x"` as context, not the whole trimmed text. -/
theorem strict_parse_newline_counterexample :
    parseWhatsAppMessage "a@b.com: x\ny" (Except.error "m") (fun _ => Except.error "p")
        = some (Json.obj [("recipient", Json.str "a@b.com"), ("context", Json.str "x")]) ∧
    jsTrim "x\ny" = "x\ny" ∧
    ("x" : String) ≠ "x\ny" :=
  ⟨rfl, rfl, by decide⟩

/-- C1 (amended): for a message of the exact form `addr@dom.tld: text` —
local part `a :: A` over `[a-zA-Z0-9._%+-]`, domain `d :: D` over
`[a-zA-Z0-9.-]`, TLD `T` of at least two letters, and `text` `X` containing
no line terminators and non-empty after trimming — the strict regex
matches: `parseStrict` returns recipient `addr@dom.tld` and the trimmed
text as context, and `parseWhatsAppMessage` returns that object for every
model oracle, i.e. without consulting the fallback. -/
theorem strict_parse_format (a d : Char) (A D T X : List Char)
    (hA : ∀ c ∈ a :: A, isLocalChar c = true)
    (hD : ∀ c ∈ d :: D, isDomainChar c = true)
    (hT : ∀ c ∈ T, isTldChar c = true)
    (hT2 : 2 ≤ T.length)
    (hX : ∀ c ∈ X, jsIsDot c = true)
    (hXne : trimList X ≠ []) :
    parseStrict (String.mk ((a :: A) ++ '@' :: (((d :: D) ++ '.' :: T) ++ ':' :: ' ' :: X)))
      = some ⟨String.mk ((a :: A) ++ '@' :: ((d :: D) ++ '.' :: T)),
          String.mk (trimList X)⟩ ∧
    ∀ (m : Except String String) (pj : String → Except String Json),
      parseWhatsAppMessage
          (String.mk ((a :: A) ++ '@' :: (((d :: D) ++ '.' :: T) ++ ':' :: ' ' :: X))) m pj
        = some (Json.obj
            [("recipient", Json.str (String.mk ((a :: A) ++ '@' :: ((d :: D) ++ '.' :: T)))),
             ("context", Json.str (String.mk (trimList X)))]) := by
  have hdw : X.dropWhile jsIsSpace ≠ [] := trimList_ne_nil_imp hXne
  have hsearch := searchEmail_eq a A d D T X hA hD hT hT2 hX hdw
  have hG1 : trimList ((a :: A) ++ '@' :: ((d :: D) ++ '.' :: T))
      = (a :: A) ++ '@' :: ((d :: D) ++ '.' :: T) := by
    obtain ⟨T0, tl, hTeq⟩ : ∃ T0 tl, T = T0 ++ [tl] := by
      rcases List.eq_nil_or_concat T with h | ⟨L, b, h⟩
      · subst h; simp at hT2
      · exact ⟨L, b, by simpa [List.concat_eq_append] using h⟩
    subst hTeq
    have ha : jsIsSpace a = false := isLocalChar_not_space (hA a (List.mem_cons_self a A))
    have htl : jsIsSpace tl = false := isTldChar_not_space (hT tl (by simp))
    have hre : (a :: A) ++ '@' :: ((d :: D) ++ '.' :: (T0 ++ [tl]))
        = a :: ((A ++ '@' :: ((d :: D) ++ '.' :: T0)) ++ [tl]) := by
      simp [List.append_assoc]
    rw [hre]
    exact trimList_eq_self_of_ends a tl _ ha htl
  have hR : trimList (X.dropWhile jsIsSpace) = trimList X := trimList_dropWhile X
  have hps : parseStrict
      (String.mk ((a :: A) ++ '@' :: (((d :: D) ++ '.' :: T) ++ ':' :: ' ' :: X)))
      = some ⟨String.mk ((a :: A) ++ '@' :: ((d :: D) ++ '.' :: T)),
          String.mk (trimList X)⟩ := by
    unfold parseStrict
    show (match searchEmail ((a :: A) ++ '@' :: (((d :: D) ++ '.' :: T) ++ ':' :: ' ' :: X)) with
      | some r => some (⟨String.mk (trimList r.1), String.mk (trimList r.2)⟩ : EmailData)
      | none => none) = _
    rw [hsearch]
    show some (⟨String.mk (trimList ((a :: A) ++ '@' :: ((d :: D) ++ '.' :: T))),
        String.mk (trimList (X.dropWhile jsIsSpace))⟩ : EmailData) = _
    rw [hG1, hR]
  refine ⟨hps, fun m pj => ?_⟩
  unfold parseWhatsAppMessage
  rw [hps]

/-- Witness for C1 at the concrete message `"a@b.com: hi"`. -/
theorem strict_parse_format_witness :
    (∀ c ∈ ('a' :: []), isLocalChar c = true) ∧
    (∀ c ∈ ('b' :: []), isDomainChar c = true) ∧
    (∀ c ∈ (['c', 'o', 'm'] : List Char), isTldChar c = true) ∧
    2 ≤ (['c', 'o', 'm'] : List Char).length ∧
    (∀ c ∈ (['h', 'i'] : List Char), jsIsDot c = true) ∧
    trimList ['h', 'i'] ≠ [] ∧
    parseStrict (String.mk (('a' :: []) ++ '@' ::
        ((('b' :: []) ++ '.' :: ['c', 'o', 'm']) ++ ':' :: ' ' :: ['h', 'i'])))
      = some ⟨String.mk (('a' :: []) ++ '@' :: (('b' :: []) ++ '.' :: ['c', 'o', 'm'])),
          String.mk (trimList ['h', 'i'])⟩ :=
  ⟨by decide, by decide, by decide, by decide, by decide, by decide,
   (strict_parse_format 'a' 'b' [] [] ['c', 'o', 'm'] ['h', 'i']
      (by decide) (by decide) (by decide) (by decide) (by decide) (by decide)).1⟩

/-- Witness for C7 at a concrete context and response. -/
theorem content_generator_guarantee_witness :
    ("Plain text" : String) = String.mk (trimList (replaceSubj ("Plain text" : String).data)) ∧
    ("Regarding: w..." : String) =
      ((matchSubject ("Plain text" : String).data).map (fun cap => String.mk (trimList cap))).getD
        (fallbackSubject "w") ∧
    (("Regarding: w..." : String) = "" → matchSubject ("Plain text" : String).data ≠ none) ∧
    fallbackSubject "w" ≠ "" :=
  content_generator_guarantee "w" "Plain text" "Regarding: w..." "Plain text" rfl
